import Mathlib

/-!
Verification development for the memo-app repository (TypeScript).

The development shallowly embeds the two core modules:

* `src/memo.ts` — the record model: `Memo`, `generateId`, `createMemo`,
  `updateMemo`, `searchMemos`, `filterMemosByTag`, `sortMemosByDate`.
* `src/storage.ts` — the storage adapter: the persisted JSON document is
  modelled as a list of stored records whose date fields are ISO-8601
  strings; `saveMemos`/`loadMemos` translate between `Memo` records and
  stored records, and `getMemo`/`updateMemo`/`deleteMemo` are the
  read-modify-write operations on the in-memory collection.

Modelling conventions:

* JavaScript `Date` values are millisecond timestamps (`Nat`).
* `Date.now()`, `new Date()` and `Math.random()` are environment inputs;
  functions that read them in the source take the corresponding value as
  an explicit argument (`now : Nat`, `randSuffix : String`).
* The ECMAScript built-ins `Date.prototype.toISOString` and date parsing
  of `new Date(isoString)` are modelled after the ECMAScript
  specification (`DayFromYear`, `InLeapYear`, `MonthFromTime`,
  `MakeDay`): `toISOString` and `parseISODate` below.
* Storage operations return the new persisted document explicitly; a
  `none` document component means the operation returned without calling
  `saveMemos` (no write occurred).
-/

/-! ### Platform model: ECMAScript dates and ISO-8601 strings -/

/-- Gregorian leap-year test, as in ECMAScript `DaysInYear`
(`year % 4 === 0 && year % 100 !== 0 || year % 400 === 0`). -/
def isLeapYear (y : Nat) : Bool :=
  (y % 4 == 0 && y % 100 != 0) || y % 400 == 0

/-- Number of days in year `y`. -/
def daysInYear (y : Nat) : Nat := if isLeapYear y then 366 else 365

/-- The leap-year flag as a number (ECMAScript `InLeapYear`). -/
def leapBit (y : Nat) : Nat := if isLeapYear y then 1 else 0

/-- Day number of 1 January of year `y`, counted from the epoch
1970-01-01 (ECMAScript `DayFromYear`, restricted to years ≥ 1970). -/
def dayFromYear (y : Nat) : Nat :=
  365 * (y - 1970) + (y - 1969) / 4 - (y - 1901) / 100 + (y - 1601) / 400

/-- Split a day count (days since 1970-01-01) into the year it falls in
and the day-of-year, scanning forward from year `y` (ECMAScript
`YearFromTime`: the largest year whose first day is not after `z`). -/
def yearFromDays (y z : Nat) : Nat × Nat :=
  if z < daysInYear y then (y, z)
  else yearFromDays (y + 1) (z - daysInYear y)
termination_by z
decreasing_by
  have h365 : 365 ≤ daysInYear y := by
    unfold daysInYear; split <;> omega
  omega

/-- Month (1–12) and day-of-month (1–31) from a day-of-year, for leap
flag `L` (ECMAScript `MonthFromTime` / `DateFromTime`). -/
def monthDayFromDoy (L doy : Nat) : Nat × Nat :=
  if doy < 31 then (1, doy + 1)
  else if doy < 59 + L then (2, doy - 31 + 1)
  else if doy < 90 + L then (3, doy - (59 + L) + 1)
  else if doy < 120 + L then (4, doy - (90 + L) + 1)
  else if doy < 151 + L then (5, doy - (120 + L) + 1)
  else if doy < 181 + L then (6, doy - (151 + L) + 1)
  else if doy < 212 + L then (7, doy - (181 + L) + 1)
  else if doy < 243 + L then (8, doy - (212 + L) + 1)
  else if doy < 273 + L then (9, doy - (243 + L) + 1)
  else if doy < 304 + L then (10, doy - (273 + L) + 1)
  else if doy < 334 + L then (11, doy - (304 + L) + 1)
  else (12, doy - (334 + L) + 1)

/-- Day-of-year on which month `m` starts, for leap flag `L`
(cumulative month lengths, as used by ECMAScript `MakeDay`). -/
def monthStart (L : Nat) : Nat → Nat
  | 2 => 31
  | 3 => 59 + L
  | 4 => 90 + L
  | 5 => 120 + L
  | 6 => 151 + L
  | 7 => 181 + L
  | 8 => 212 + L
  | 9 => 243 + L
  | 10 => 273 + L
  | 11 => 304 + L
  | 12 => 334 + L
  | _ => 0

/-- Number of days in month `m` for leap flag `L`. -/
def daysInMonth (L : Nat) : Nat → Nat
  | 1 => 31
  | 2 => 28 + L
  | 3 => 31
  | 4 => 30
  | 5 => 31
  | 6 => 30
  | 7 => 31
  | 8 => 31
  | 9 => 30
  | 10 => 31
  | 11 => 30
  | 12 => 31
  | _ => 0

/-- Zero-padded decimal digits of `n`, exactly `k` characters, most
significant first (the fixed-width number fields of `toISOString`). -/
def padDigits : Nat → Nat → List Char
  | 0, _ => []
  | k + 1, n => Nat.digitChar (n / 10 ^ k) :: padDigits k (n % 10 ^ k)

/-- Read exactly `k` decimal digits, accumulating their value onto
`acc`; `none` if a non-digit or the end of input is hit. -/
def readDigits : Nat → List Char → Nat → Option (Nat × List Char)
  | 0, cs, acc => some (acc, cs)
  | _ + 1, [], _ => none
  | k + 1, c :: cs, acc =>
    if c.isDigit then readDigits k cs (acc * 10 + (c.toNat - 48)) else none

/-- Consume one expected character. -/
def expectChar (c : Char) : List Char → Option (List Char)
  | [] => none
  | x :: xs => if x = c then some xs else none

/-- Read a `k`-digit number followed by the separator `sep`. -/
def readComp (k : Nat) (sep : Char) (cs : List Char) : Option (Nat × List Char) :=
  match readDigits k cs 0 with
  | some (n, cs) =>
    match expectChar sep cs with
    | some cs => some (n, cs)
    | none => none
  | none => none

/-- Character sequence `YYYY-MM-DDTHH:mm:ss.sssZ` from broken-down date
components (the ECMAScript `toISOString` format for 4-digit years). -/
def isoCore (y mo d hh mi ss ms : Nat) : List Char :=
  padDigits 4 y ++ '-' :: padDigits 2 mo ++ '-' :: padDigits 2 d ++ 'T' ::
  padDigits 2 hh ++ ':' :: padDigits 2 mi ++ ':' :: padDigits 2 ss ++ '.' ::
  padDigits 3 ms ++ ['Z']

/-- ISO-8601 characters of the millisecond timestamp `t`:
split into day count and time of day, convert the day count to a
calendar date, and render every field zero-padded. -/
def msToISOChars (t : Nat) : List Char :=
  isoCore (yearFromDays 1970 (t / 86400000)).1
    (monthDayFromDoy (leapBit (yearFromDays 1970 (t / 86400000)).1)
      (yearFromDays 1970 (t / 86400000)).2).1
    (monthDayFromDoy (leapBit (yearFromDays 1970 (t / 86400000)).1)
      (yearFromDays 1970 (t / 86400000)).2).2
    (t % 86400000 / 3600000)
    (t % 86400000 % 3600000 / 60000)
    (t % 86400000 % 60000 / 1000)
    (t % 86400000 % 1000)

/-- Parse an ISO-8601 string `YYYY-MM-DDTHH:mm:ss.sssZ` back to a
millisecond timestamp (the date parsing of `new Date(isoString)`,
ECMAScript `MakeDay`/`MakeTime`); `none` on any malformed or
out-of-range component (JavaScript would yield an invalid date). -/
def parseISOChars (cs : List Char) : Option Nat :=
  match readComp 4 '-' cs with
  | none => none
  | some (y, cs) =>
  match readComp 2 '-' cs with
  | none => none
  | some (mo, cs) =>
  match readComp 2 'T' cs with
  | none => none
  | some (d, cs) =>
  match readComp 2 ':' cs with
  | none => none
  | some (hh, cs) =>
  match readComp 2 ':' cs with
  | none => none
  | some (mi, cs) =>
  match readComp 2 '.' cs with
  | none => none
  | some (ss, cs) =>
  match readDigits 3 cs 0 with
  | none => none
  | some (ms, cs) =>
  match expectChar 'Z' cs with
  | none => none
  | some cs =>
  if cs = [] ∧ 1 ≤ mo ∧ mo ≤ 12 ∧ 1 ≤ d ∧ d ≤ daysInMonth (leapBit y) mo ∧
      hh ≤ 23 ∧ mi ≤ 59 ∧ ss ≤ 59 then
    some ((dayFromYear y + monthStart (leapBit y) mo + (d - 1)) * 86400000 +
      hh * 3600000 + mi * 60000 + ss * 1000 + ms)
  else none

/-- Model of `Date.prototype.toISOString` on a millisecond timestamp. -/
def toISOString (t : Nat) : String := String.mk (msToISOChars t)

/-- Model of `new Date(s).getTime()` on an ISO-8601 string. -/
def parseISODate (s : String) : Option Nat := parseISOChars s.data

/-! ### Record model (`src/memo.ts`) -/

/-- The `Memo` interface of `src/memo.ts`; `Date` fields are modelled as
millisecond timestamps. -/
structure Memo where
  id : String
  title : String
  content : String
  createdAt : Nat
  updatedAt : Nat
  tags : List String
deriving DecidableEq

/-- `CreateMemoInput = Omit<Memo, 'id' | 'createdAt' | 'updatedAt'>`. -/
structure CreateMemoInput where
  title : String
  content : String
  tags : List String
deriving DecidableEq

/-- `UpdateMemoInput = Partial<Omit<Memo, 'id' | 'createdAt' | 'updatedAt'>>`;
an absent field is `none`. -/
structure UpdateMemoInput where
  title : Option String := none
  content : Option String := none
  tags : Option (List String) := none
deriving DecidableEq

/-- `generateId`: `` `memo_${Date.now()}_${Math.random().toString(36).substring(2, 9)}` ``.
`Date.now()` and the random base-36 suffix are environment inputs. -/
def generateId (now : Nat) (randSuffix : String) : String :=
  "memo_" ++ toString now ++ "_" ++ randSuffix

/-- `createMemo`: fresh id, fields copied from the input,
`createdAt = updatedAt = now`. -/
def createMemo (input : CreateMemoInput) (now : Nat) (randSuffix : String) : Memo :=
  { id := generateId now randSuffix
    title := input.title
    content := input.content
    tags := input.tags
    createdAt := now
    updatedAt := now }

/-- `updateMemo`: `{ ...memo, ...updates, updatedAt: new Date() }` —
fields present in `updates` win over the ones of `memo`, the id and
`createdAt` are not updatable, `updatedAt` is set to `now`. -/
def updateMemo (memo : Memo) (updates : UpdateMemoInput) (now : Nat) : Memo :=
  { id := memo.id
    title := updates.title.getD memo.title
    content := updates.content.getD memo.content
    tags := updates.tags.getD memo.tags
    createdAt := memo.createdAt
    updatedAt := now }

/-- Substring test on character lists: does `needle` occur contiguously
inside `haystack`? (model of JavaScript `String.prototype.includes`). -/
def hasSubstr : List Char → List Char → Bool
  | _, [] => true
  | [], _ => false
  | c :: t, n => List.isPrefixOf n (c :: t) || hasSubstr t n

/-- `s.includes(sub)` for strings. -/
def jsIncludes (s sub : String) : Bool := hasSubstr s.data sub.data

/-- Model of `String.prototype.toLowerCase`, mapping each character to
its lower-case form (`Char.toLower`, basic-latin case folding). -/
def jsToLower (s : String) : String := String.mk (s.data.map Char.toLower)

/-- `searchMemos`: keep the memos whose lower-cased title, content or
some lower-cased tag contains the lower-cased keyword. -/
def searchMemos (memos : List Memo) (keyword : String) : List Memo :=
  memos.filter fun memo =>
    jsIncludes (jsToLower memo.title) (jsToLower keyword) ||
    jsIncludes (jsToLower memo.content) (jsToLower keyword) ||
    memo.tags.any fun tag => jsIncludes (jsToLower tag) (jsToLower keyword)

/-- `filterMemosByTag`: keep the memos whose tag list contains `tag`
(exact, case-sensitive `Array.prototype.includes`). -/
def filterMemosByTag (memos : List Memo) (tag : String) : List Memo :=
  memos.filter fun memo => memo.tags.contains tag

/-- The `'asc' | 'desc'` order argument of `sortMemosByDate`. -/
inductive SortOrder where
  | asc
  | desc
deriving DecidableEq

/-- The comparator of `sortMemosByDate` as a "may precede" relation:
the JavaScript comparator returns `aTime - bTime` for `'asc'` and
`bTime - aTime` for `'desc'`, so `a` may precede `b` exactly when the
comparator value is ≤ 0. -/
def byDateLe : SortOrder → Memo → Memo → Bool
  | SortOrder.asc, a, b => decide (a.createdAt ≤ b.createdAt)
  | SortOrder.desc, a, b => decide (b.createdAt ≤ a.createdAt)

/-- `sortMemosByDate`: copy of the input, stably sorted by `createdAt`
(ES2019 `Array.prototype.sort` is stable); default order `'desc'`. -/
def sortMemosByDate (memos : List Memo) (order : SortOrder := SortOrder.desc) : List Memo :=
  List.mergeSort memos (byDateLe order)

/-- Specification-side predicate for `searchMemos`: the keyword occurs
as a case-insensitive substring of the title, the content or a tag. -/
def matchesKeyword (m : Memo) (keyword : String) : Prop :=
  (jsToLower keyword).data <:+: (jsToLower m.title).data ∨
  (jsToLower keyword).data <:+: (jsToLower m.content).data ∨
  ∃ tag ∈ m.tags, (jsToLower keyword).data <:+: (jsToLower tag).data

/-! ### Storage adapter (`src/storage.ts`) -/

namespace MemoStorage

/-- One element of the persisted JSON array: the shape written by
`JSON.stringify` on a `Memo`, with `Date` fields serialized by
`toISOString`. -/
structure StoredMemo where
  id : String
  title : String
  content : String
  createdAt : String
  updatedAt : String
  tags : List String
deriving DecidableEq

/-- Serialization of one memo into its stored shape. -/
def serializeMemo (m : Memo) : StoredMemo :=
  { id := m.id
    title := m.title
    content := m.content
    createdAt := toISOString m.createdAt
    updatedAt := toISOString m.updatedAt
    tags := m.tags }

/-- `saveMemos`: the document written to disk (`JSON.stringify(memos)`). -/
def saveMemos (memos : List Memo) : List StoredMemo :=
  memos.map serializeMemo

/-- `loadMemos`: parse the document, converting the date strings back
with `new Date(...)`; `none` if a date string does not parse (the
JavaScript code would produce invalid dates there). -/
def loadMemos : List StoredMemo → Option (List Memo)
  | [] => some []
  | s :: rest =>
    match parseISODate s.createdAt, parseISODate s.updatedAt, loadMemos rest with
    | some c, some u, some ms =>
      some ({ id := s.id, title := s.title, content := s.content,
              createdAt := c, updatedAt := u, tags := s.tags } :: ms)
    | _, _, _ => none

/-- `getMemo`: `memos.find(m => m.id === id) || null`. -/
def getMemo (memos : List Memo) (id : String) : Option Memo :=
  memos.find? fun memo => memo.id == id

/-- `updateMemo` of the storage class: locate the record with the same
id (`findIndex`), replace it in place and save; `(false, none)` when the
id is absent (`findIndex` returns `-1`, nothing is written). -/
def updateMemo (memos : List Memo) (updatedMemo : Memo) : Bool × Option (List Memo) :=
  match memos.findIdx? (fun memo => memo.id == updatedMemo.id) with
  | none => (false, none)
  | some index => (true, some (memos.set index updatedMemo))

/-- `deleteMemo`: filter out the records with the given id; if nothing
was filtered out, return `false` without writing, else save the
filtered collection and return `true`. -/
def deleteMemo (memos : List Memo) (id : String) : Bool × Option (List Memo) :=
  let filteredMemos := memos.filter fun memo => memo.id != id
  if filteredMemos.length = memos.length then (false, none)
  else (true, some filteredMemos)

end MemoStorage

/-! ### Platform lemmas: the ISO-8601 round trip -/

/-- Every year has at least 365 days. -/
theorem daysInYear_pos (y : Nat) : 365 ≤ daysInYear y := by
  unfold daysInYear; split <;> omega

/-- The leap flag is 0 or 1. -/
theorem leapBit_le (y : Nat) : leapBit y ≤ 1 := by
  unfold leapBit; split <;> omega

/-- `daysInYear` rewritten through the leap flag. -/
theorem daysInYear_leapBit (y : Nat) : daysInYear y = 365 + leapBit y := by
  unfold daysInYear leapBit; split <;> rfl

/-- Arithmetic form of the leap-year condition. -/
theorem daysInYear_eq (y : Nat) :
    daysInYear y = if (y % 4 = 0 ∧ y % 100 ≠ 0) ∨ y % 400 = 0 then 366 else 365 := by
  simp only [daysInYear, isLeapYear, Bool.or_eq_true, Bool.and_eq_true, beq_iff_eq,
    bne_iff_ne, ne_eq]

set_option maxHeartbeats 1000000 in
/-- The first day of year `y + 1` is `daysInYear y` days after the
first day of year `y`. -/
theorem dayFromYear_succ (y : Nat) (h : 1970 ≤ y) :
    dayFromYear (y + 1) = dayFromYear y + daysInYear y := by
  rw [daysInYear_eq, dayFromYear, dayFromYear]
  split_ifs with hl <;> omega

/-- Correctness of `yearFromDays`: the returned day-of-year is within
the returned year, and year start plus day-of-year reproduces the input
day count. -/
theorem yearFromDays_spec (z : Nat) : ∀ y Y doy : Nat, 1970 ≤ y →
    yearFromDays y z = (Y, doy) →
    y ≤ Y ∧ doy < daysInYear Y ∧ dayFromYear Y + doy = dayFromYear y + z := by
  induction z using Nat.strong_induction_on with
  | _ z ih =>
    intro y Y doy hy he
    rw [yearFromDays] at he
    by_cases hc : z < daysInYear y
    · rw [if_pos hc] at he
      injection he with h1 h2
      subst h1; subst h2
      exact ⟨Nat.le_refl _, hc, rfl⟩
    · rw [if_neg hc] at he
      have hpos := daysInYear_pos y
      have hlt : z - daysInYear y < z := by omega
      have hrec := ih _ hlt (y + 1) Y doy (by omega) he
      have hsucc := dayFromYear_succ y hy
      refine ⟨by omega, hrec.2.1, by omega⟩

/-- Years from 10000 on start at least 2932897 days after the epoch. -/
theorem dayFromYear_big (y : Nat) (h : 10000 ≤ y) : 2932897 ≤ dayFromYear y := by
  unfold dayFromYear; omega

/-- Correctness of the month/day split: `monthStart` inverts it, and
month and day-of-month are in range. -/
theorem monthDayFromDoy_spec (L doy m d : Nat) (hL : L ≤ 1) (h : doy < 365 + L)
    (he : monthDayFromDoy L doy = (m, d)) :
    monthStart L m + (d - 1) = doy ∧ 1 ≤ m ∧ m ≤ 12 ∧ 1 ≤ d ∧ d ≤ daysInMonth L m := by
  unfold monthDayFromDoy at he
  by_cases hc0 : doy < 31
  · rw [if_pos hc0] at he
    injection he with h1 h2; subst h1; subst h2; simp only [monthStart, daysInMonth]; omega
  rw [if_neg hc0] at he
  by_cases hc1 : doy < 59 + L
  · rw [if_pos hc1] at he
    injection he with h1 h2; subst h1; subst h2; simp only [monthStart, daysInMonth]; omega
  rw [if_neg hc1] at he
  by_cases hc2 : doy < 90 + L
  · rw [if_pos hc2] at he
    injection he with h1 h2; subst h1; subst h2; simp only [monthStart, daysInMonth]; omega
  rw [if_neg hc2] at he
  by_cases hc3 : doy < 120 + L
  · rw [if_pos hc3] at he
    injection he with h1 h2; subst h1; subst h2; simp only [monthStart, daysInMonth]; omega
  rw [if_neg hc3] at he
  by_cases hc4 : doy < 151 + L
  · rw [if_pos hc4] at he
    injection he with h1 h2; subst h1; subst h2; simp only [monthStart, daysInMonth]; omega
  rw [if_neg hc4] at he
  by_cases hc5 : doy < 181 + L
  · rw [if_pos hc5] at he
    injection he with h1 h2; subst h1; subst h2; simp only [monthStart, daysInMonth]; omega
  rw [if_neg hc5] at he
  by_cases hc6 : doy < 212 + L
  · rw [if_pos hc6] at he
    injection he with h1 h2; subst h1; subst h2; simp only [monthStart, daysInMonth]; omega
  rw [if_neg hc6] at he
  by_cases hc7 : doy < 243 + L
  · rw [if_pos hc7] at he
    injection he with h1 h2; subst h1; subst h2; simp only [monthStart, daysInMonth]; omega
  rw [if_neg hc7] at he
  by_cases hc8 : doy < 273 + L
  · rw [if_pos hc8] at he
    injection he with h1 h2; subst h1; subst h2; simp only [monthStart, daysInMonth]; omega
  rw [if_neg hc8] at he
  by_cases hc9 : doy < 304 + L
  · rw [if_pos hc9] at he
    injection he with h1 h2; subst h1; subst h2; simp only [monthStart, daysInMonth]; omega
  rw [if_neg hc9] at he
  by_cases hc10 : doy < 334 + L
  · rw [if_pos hc10] at he
    injection he with h1 h2; subst h1; subst h2; simp only [monthStart, daysInMonth]; omega
  rw [if_neg hc10] at he
  injection he with h1 h2; subst h1; subst h2; simp only [monthStart, daysInMonth]; omega

/-- No month is longer than 31 days. -/
theorem daysInMonth_le (L m : Nat) (hL : L ≤ 1) : daysInMonth L m ≤ 31 := by
  rcases m with _ | _ | _ | _ | _ | _ | _ | _ | _ | _ | _ | _ | _ | m <;>
    simp [daysInMonth] <;> omega

/-- `Nat.digitChar` of a digit is a digit character with the expected
character code. -/
theorem digitChar_spec (d : Nat) (h : d < 10) :
    (Nat.digitChar d).isDigit = true ∧ (Nat.digitChar d).toNat - 48 = d := by
  interval_cases d <;> exact ⟨rfl, rfl⟩

/-- Reading `k` digits undoes zero-padded printing of any `n < 10 ^ k`,
for any accumulator and trailing input. -/
theorem readDigits_padDigits (k : Nat) : ∀ (n acc : Nat) (rest : List Char), n < 10 ^ k →
    readDigits k (padDigits k n ++ rest) acc = some (acc * 10 ^ k + n, rest) := by
  induction k with
  | zero =>
    intro n acc rest h
    have hn : n = 0 := by simpa using h
    subst hn
    simp [padDigits, readDigits]
  | succ k ih =>
    intro n acc rest h
    have hd : n / 10 ^ k < 10 := by
      apply Nat.div_lt_of_lt_mul
      calc n < 10 ^ (k + 1) := h
        _ = 10 ^ k * 10 := by rw [pow_succ]
    have hm : n % 10 ^ k < 10 ^ k := Nat.mod_lt _ (Nat.pos_pow_of_pos k (by norm_num))
    obtain ⟨hdig, hval⟩ := digitChar_spec _ hd
    have key : (acc * 10 + n / 10 ^ k) * 10 ^ k + n % 10 ^ k = acc * 10 ^ (k + 1) + n := by
      have hqr : 10 ^ k * (n / 10 ^ k) + n % 10 ^ k = n := Nat.div_add_mod n (10 ^ k)
      calc (acc * 10 + n / 10 ^ k) * 10 ^ k + n % 10 ^ k
          = acc * (10 ^ k * 10) + (10 ^ k * (n / 10 ^ k) + n % 10 ^ k) := by ring
        _ = acc * 10 ^ (k + 1) + n := by rw [hqr, pow_succ]
    simp only [padDigits, readDigits, List.cons_append]
    rw [if_pos hdig, hval]
    rw [show (padDigits k (n % 10 ^ k)).append rest = padDigits k (n % 10 ^ k) ++ rest from rfl]
    rw [ih _ _ _ hm, key]

/-- `readComp` undoes a zero-padded field followed by its separator. -/
theorem readComp_pad (k n : Nat) (sep : Char) (rest : List Char) (h : n < 10 ^ k) :
    readComp k sep (padDigits k n ++ sep :: rest) = some (n, rest) := by
  unfold readComp
  rw [readDigits_padDigits k n 0 (sep :: rest) h]
  simp [expectChar]

/-- `readDigits` with zero accumulator undoes zero-padded printing. -/
theorem readDigits_pad_zero (k n : Nat) (rest : List Char) (h : n < 10 ^ k) :
    readDigits k (padDigits k n ++ rest) 0 = some (n, rest) := by
  rw [readDigits_padDigits k n 0 rest h]
  simp

/-- Parsing a rendered `isoCore` recovers its components, provided they
are in the ranges the renderer is used with. -/
theorem parse_isoCore (y mo d hh mi ss ms : Nat)
    (hy : y < 10000) (hmo1 : 1 ≤ mo) (hmo2 : mo ≤ 12) (hd1 : 1 ≤ d)
    (hd2 : d ≤ daysInMonth (leapBit y) mo) (hhh : hh ≤ 23) (hmi : mi ≤ 59) (hss : ss ≤ 59)
    (hms : ms < 1000) :
    parseISOChars (isoCore y mo d hh mi ss ms) =
      some ((dayFromYear y + monthStart (leapBit y) mo + (d - 1)) * 86400000 +
        hh * 3600000 + mi * 60000 + ss * 1000 + ms) := by
  have hdm := daysInMonth_le (leapBit y) mo (leapBit_le y)
  have hmo' : mo < 10 ^ 2 := by omega
  have hd' : d < 10 ^ 2 := by omega
  have hhh' : hh < 10 ^ 2 := by omega
  have hmi' : mi < 10 ^ 2 := by omega
  have hss' : ss < 10 ^ 2 := by omega
  have hms' : ms < 10 ^ 3 := by omega
  have hy' : y < 10 ^ 4 := by omega
  unfold isoCore parseISOChars
  simp only [List.cons_append, List.append_assoc, readComp_pad, readDigits_pad_zero,
    hmo', hd', hhh', hmi', hss', hms', hy',
    show expectChar 'Z' ['Z'] = some [] from rfl,
    hmo1, hmo2, hd1, hd2, hhh, hmi, hss, and_self, and_true, true_and, if_true]

/-- The ISO-8601 round trip: parsing the rendered string of any
timestamp before year 10000 gives the timestamp back. -/
theorem parse_msToISO (t : Nat) (ht : t < 253402300800000) :
    parseISOChars (msToISOChars t) = some t := by
  rcases hp : yearFromDays 1970 (t / 86400000) with ⟨Y, doy⟩
  obtain ⟨hY0, hdoyY, hsum⟩ := yearFromDays_spec (t / 86400000) 1970 Y doy (by omega) hp
  have h1970 : dayFromYear 1970 = 0 := by norm_num [dayFromYear]
  rw [h1970] at hsum
  have hz : t / 86400000 ≤ 2932896 := by omega
  have hY1 : Y ≤ 9999 := by
    by_contra hcon
    have := dayFromYear_big Y (by omega)
    omega
  have hdoy : doy < 365 + leapBit Y := by
    rw [daysInYear_leapBit] at hdoyY; exact hdoyY
  rcases hmd : monthDayFromDoy (leapBit Y) doy with ⟨mo, d⟩
  obtain ⟨hmds, hmo1, hmo2, hd1, hd2⟩ :=
    monthDayFromDoy_spec _ _ _ _ (leapBit_le Y) hdoy hmd
  unfold msToISOChars
  rw [hp, hmd]
  rw [parse_isoCore Y mo d _ _ _ _ (by omega) hmo1 hmo2 hd1 hd2
    (by omega) (by omega) (by omega) (by omega)]
  congr 1
  omega

/-- String-level form of the round trip, for the storage layer. -/
theorem parseISODate_toISOString (t : Nat) (ht : t < 253402300800000) :
    parseISODate (toISOString t) = some t :=
  parse_msToISO t ht

/-! ### Record model lemmas -/

/-- The empty needle is a substring of anything. -/
theorem hasSubstr_nil (cs : List Char) : hasSubstr cs [] = true := by
  cases cs <;> rfl

/-- `hasSubstr` decides contiguous-substring containment. -/
theorem hasSubstr_iff (needle : List Char) : ∀ haystack : List Char,
    hasSubstr haystack needle = true ↔ needle <:+: haystack := by
  intro haystack
  induction haystack with
  | nil =>
    cases needle with
    | nil => simp [hasSubstr]
    | cons c t => simp [hasSubstr]
  | cons c t ih =>
    cases needle with
    | nil =>
      simp [hasSubstr_nil]
    | cons c2 t2 =>
      rw [show hasSubstr (c :: t) (c2 :: t2) =
        (List.isPrefixOf (c2 :: t2) (c :: t) || hasSubstr t (c2 :: t2)) from rfl]
      rw [Bool.or_eq_true, List.isPrefixOf_iff_prefix, ih, List.infix_cons_iff]

/-- `jsIncludes` decides substring containment on the character data. -/
theorem jsIncludes_iff (s sub : String) : jsIncludes s sub = true ↔ sub.data <:+: s.data :=
  hasSubstr_iff sub.data s.data

/-- C7: for every input, time and random suffix, `createMemo` returns a
memo with a non-empty id, whose title, content and tags are the input
ones, and whose `createdAt` equals `updatedAt`. -/
theorem createMemo_spec (input : CreateMemoInput) (now : Nat) (rand : String) :
    (createMemo input now rand).id ≠ "" ∧
    (createMemo input now rand).title = input.title ∧
    (createMemo input now rand).content = input.content ∧
    (createMemo input now rand).tags = input.tags ∧
    (createMemo input now rand).createdAt = (createMemo input now rand).updatedAt := by
  refine ⟨?_, rfl, rfl, rfl, rfl⟩
  show generateId now rand ≠ ""
  unfold generateId
  intro hcon
  have hdata := congrArg String.data hcon
  simp [String.data_append] at hdata

/-- C6 (counterexample): two `createMemo` calls in the same millisecond
that draw the same random suffix produce two different memos with the
SAME id, so ids of memos created in rapid succession are not always
distinct. -/
theorem createMemo_id_collision :
    (createMemo ⟨"groceries", "buy milk", []⟩ 1700000000000 "0000000").id =
    (createMemo ⟨"standup", "9am call", []⟩ 1700000000000 "0000000").id := rfl

/-- Left cancellation for string append. -/
theorem string_append_cancel (a b c : String) (h : a ++ b = a ++ c) : b = c := by
  have hdata := congrArg String.data h
  rw [String.data_append, String.data_append] at hdata
  exact String.ext (List.append_cancel_left hdata)

/-- C6 (amended): two `createMemo` calls in the same millisecond get
distinct ids provided the random suffixes they draw are distinct. -/
theorem createMemo_distinct_ids (i1 i2 : CreateMemoInput) (now : Nat) (r1 r2 : String)
    (hr : r1 ≠ r2) :
    (createMemo i1 now r1).id ≠ (createMemo i2 now r2).id := by
  show generateId now r1 ≠ generateId now r2
  unfold generateId
  intro hcon
  exact hr (string_append_cancel ("memo_" ++ toString now ++ "_") r1 r2 hcon)

/-- C6 witness for the amended statement. -/
theorem createMemo_distinct_ids_witness :
    ("abc1234" : String) ≠ "xyz9876" ∧
    (createMemo ⟨"a", "b", []⟩ 1700000000000 "abc1234").id ≠
      (createMemo ⟨"c", "d", []⟩ 1700000000000 "xyz9876").id :=
  ⟨by decide, createMemo_distinct_ids ⟨"a", "b", []⟩ ⟨"c", "d", []⟩ 1700000000000
    "abc1234" "xyz9876" (by decide)⟩

/-- C2: `updateMemo` preserves the id and `createdAt`, sets `updatedAt`
to the (later) current time — so the result's `updatedAt` is at least
the input's — and overwrites exactly the fields present in `updates`,
keeping the memo's own value for every absent field; with an empty
update every field except `updatedAt` is preserved. -/
theorem updateMemo_spec (memo : Memo) (updates : UpdateMemoInput) (now : Nat)
    (h : memo.updatedAt ≤ now) :
    (updateMemo memo updates now).id = memo.id ∧
    (updateMemo memo updates now).createdAt = memo.createdAt ∧
    (updateMemo memo updates now).updatedAt = now ∧
    memo.updatedAt ≤ (updateMemo memo updates now).updatedAt ∧
    (updates.title = none → (updateMemo memo updates now).title = memo.title) ∧
    (∀ v, updates.title = some v → (updateMemo memo updates now).title = v) ∧
    (updates.content = none → (updateMemo memo updates now).content = memo.content) ∧
    (∀ v, updates.content = some v → (updateMemo memo updates now).content = v) ∧
    (updates.tags = none → (updateMemo memo updates now).tags = memo.tags) ∧
    (∀ v, updates.tags = some v → (updateMemo memo updates now).tags = v) := by
  refine ⟨rfl, rfl, rfl, h, ?_, ?_, ?_, ?_, ?_, ?_⟩
  · intro hv
    show updates.title.getD memo.title = memo.title
    rw [hv]; rfl
  · intro v hv
    show updates.title.getD memo.title = v
    rw [hv]; rfl
  · intro hv
    show updates.content.getD memo.content = memo.content
    rw [hv]; rfl
  · intro v hv
    show updates.content.getD memo.content = v
    rw [hv]; rfl
  · intro hv
    show updates.tags.getD memo.tags = memo.tags
    rw [hv]; rfl
  · intro v hv
    show updates.tags.getD memo.tags = v
    rw [hv]; rfl

/-- C2 witness. -/
theorem updateMemo_spec_witness :
    Memo.updatedAt ⟨"id1", "t", "c", 1, 2, ["x"]⟩ ≤ 5 ∧
    (updateMemo ⟨"id1", "t", "c", 1, 2, ["x"]⟩ ⟨some "t2", none, none⟩ 5).id = "id1" ∧
    (updateMemo ⟨"id1", "t", "c", 1, 2, ["x"]⟩ ⟨some "t2", none, none⟩ 5).createdAt = 1 :=
  ⟨by decide,
   (updateMemo_spec ⟨"id1", "t", "c", 1, 2, ["x"]⟩ ⟨some "t2", none, none⟩ 5 (by decide)).1,
   (updateMemo_spec ⟨"id1", "t", "c", 1, 2, ["x"]⟩ ⟨some "t2", none, none⟩ 5 (by decide)).2.1⟩

/-- C4: `searchMemos` returns exactly the memos whose title, content or
some tag contains the keyword as a case-insensitive substring, and the
result is a sublist of the input (matches keep their original order). -/
theorem searchMemos_spec (memos : List Memo) (keyword : String) :
    (∀ m, m ∈ searchMemos memos keyword ↔ m ∈ memos ∧ matchesKeyword m keyword) ∧
    List.Sublist (searchMemos memos keyword) memos := by
  constructor
  · intro m
    unfold searchMemos matchesKeyword
    simp only [List.mem_filter, Bool.or_eq_true, jsIncludes_iff, List.any_eq_true]
    tauto
  · exact List.filter_sublist _

/-- C10: searching with the empty keyword keeps every memo: the empty
string is a substring of every title. -/
theorem searchMemos_empty_keyword (memos : List Memo) : searchMemos memos "" = memos := by
  unfold searchMemos
  apply List.filter_eq_self.mpr
  intro m _
  rw [show jsIncludes (jsToLower m.title) (jsToLower "") = true from hasSubstr_nil _]
  simp

/-- C9: `filterMemosByTag` returns exactly the memos whose tag list
contains the tag (exact, case-sensitive membership), as a sublist of
the input in original order. -/
theorem filterMemosByTag_spec (memos : List Memo) (tag : String) :
    (∀ m, m ∈ filterMemosByTag memos tag ↔ m ∈ memos ∧ tag ∈ m.tags) ∧
    List.Sublist (filterMemosByTag memos tag) memos := by
  constructor
  · intro m
    unfold filterMemosByTag
    rw [List.mem_filter]
    constructor
    · rintro ⟨hm, hc⟩
      exact ⟨hm, List.elem_iff.mp hc⟩
    · rintro ⟨hm, hc⟩
      exact ⟨hm, List.elem_iff.mpr hc⟩
  · exact List.filter_sublist _

/-- The comparator relation is transitive for both orders. -/
theorem byDateLe_trans (ord : SortOrder) (a b c : Memo) :
    byDateLe ord a b = true → byDateLe ord b c = true → byDateLe ord a c = true := by
  cases ord <;> simp [byDateLe] <;> omega

/-- The comparator relation is total for both orders. -/
theorem byDateLe_total (ord : SortOrder) (a b : Memo) :
    (byDateLe ord a b || byDateLe ord b a) = true := by
  cases ord <;> simp [byDateLe] <;> omega

/-- C5: `sortMemosByDate` defaults to descending order; the ascending
result is sorted by non-decreasing `createdAt` and the descending
result by non-increasing `createdAt`; the output is a permutation of
the input; and the sort is stable: for each creation time, the memos
with that time appear in their original relative order (their filtered
subsequence is unchanged). The input itself is untouched — the model is
a pure function on an input copy, as `[...memos].sort` is. -/
theorem sortMemosByDate_spec (memos : List Memo) :
    sortMemosByDate memos = sortMemosByDate memos SortOrder.desc ∧
    List.Pairwise (fun a b => a.createdAt ≤ b.createdAt) (sortMemosByDate memos SortOrder.asc) ∧
    List.Pairwise (fun a b => b.createdAt ≤ a.createdAt) (sortMemosByDate memos SortOrder.desc) ∧
    (∀ ord, List.Perm (sortMemosByDate memos ord) memos) ∧
    (∀ ord t, List.filter (fun m => m.createdAt == t) (sortMemosByDate memos ord) =
      List.filter (fun m => m.createdAt == t) memos) := by
  refine ⟨rfl, ?_, ?_, ?_, ?_⟩
  · have hs := List.sorted_mergeSort (byDateLe_trans SortOrder.asc)
      (byDateLe_total SortOrder.asc) memos
    exact hs.imp fun hab => by simpa [byDateLe] using hab
  · have hs := List.sorted_mergeSort (byDateLe_trans SortOrder.desc)
      (byDateLe_total SortOrder.desc) memos
    exact hs.imp fun hab => by simpa [byDateLe] using hab
  · intro ord
    exact List.mergeSort_perm memos (byDateLe ord)
  · intro ord t
    have hpair : List.Pairwise (fun a b => byDateLe ord a b = true)
        (memos.filter fun m => m.createdAt == t) := by
      apply List.pairwise_of_forall_mem_list
      intro a ha b hb
      have ha2 : a.createdAt = t := by simpa using (List.mem_filter.mp ha).2
      have hb2 : b.createdAt = t := by simpa using (List.mem_filter.mp hb).2
      cases ord <;> simp [byDateLe, ha2, hb2]
    have h1 : List.Sublist (memos.filter fun m => m.createdAt == t)
        (sortMemosByDate memos ord) :=
      List.sublist_mergeSort (byDateLe_trans ord) (byDateLe_total ord) hpair
        (List.filter_sublist _)
    have h2 : List.filter (fun m => m.createdAt == t)
        (memos.filter fun m => m.createdAt == t) = memos.filter fun m => m.createdAt == t :=
      List.filter_eq_self.mpr fun a ha => (List.mem_filter.mp ha).2
    have h3 : List.Sublist (memos.filter fun m => m.createdAt == t)
        (List.filter (fun m => m.createdAt == t) (sortMemosByDate memos ord)) :=
      h2 ▸ List.Sublist.filter _ h1
    have h4 : (List.filter (fun m => m.createdAt == t) (sortMemosByDate memos ord)).length =
        (memos.filter fun m => m.createdAt == t).length := by
      rw [← List.countP_eq_length_filter, ← List.countP_eq_length_filter]
      exact List.Perm.countP_eq _ (List.mergeSort_perm memos (byDateLe ord))
    exact (h3.eq_of_length h4.symm).symm

/-! ### Storage lemmas -/

/-- Removing the records with an id that occurs exactly once (ids are
nodup) shortens the collection by exactly one. -/
theorem filter_id_length (i : String) : ∀ memos : List Memo,
    (memos.map Memo.id).Nodup → (∃ m ∈ memos, m.id = i) →
    (memos.filter fun m => m.id != i).length + 1 = memos.length := by
  intro memos
  induction memos with
  | nil => simp
  | cons x xs ih =>
    intro hnd hex
    rw [List.map_cons, List.nodup_cons] at hnd
    by_cases hx : x.id = i
    · have hxs : ∀ m ∈ xs, m.id ≠ i := by
        intro m hm hmi
        exact hnd.1 (List.mem_map.mpr ⟨m, hm, by rw [hmi, hx]⟩)
      have hfil : xs.filter (fun m => m.id != i) = xs :=
        List.filter_eq_self.mpr fun a ha => by simpa [bne_iff_ne] using hxs a ha
      rw [List.filter_cons_of_neg (by simpa [bne_iff_ne] using hx), hfil]
      simp
    · have hex' : ∃ m ∈ xs, m.id = i := by
        rcases hex with ⟨m, hm, hmi⟩
        rcases List.mem_cons.mp hm with rfl | hm'
        · exact absurd hmi hx
        · exact ⟨m, hm', hmi⟩
      rw [List.filter_cons_of_pos (by simpa [bne_iff_ne] using hx)]
      have := ih hnd.2 hex'
      simp only [List.length_cons]
      omega

/-- C1: on a collection with unique ids, `deleteMemo` of an absent id
returns `false` and performs no write (the persisted collection is
untouched); `deleteMemo` of a present id returns `true` and writes the
collection with exactly that one record removed — one shorter, a
subsequence of the original, and free of the id. -/
theorem deleteMemo_spec (memos : List Memo) (i : String)
    (hnd : (memos.map Memo.id).Nodup) :
    ((¬ ∃ m ∈ memos, m.id = i) → MemoStorage.deleteMemo memos i = (false, none)) ∧
    ((∃ m ∈ memos, m.id = i) →
      ∃ l, MemoStorage.deleteMemo memos i = (true, some l) ∧
        l.length + 1 = memos.length ∧ List.Sublist l memos ∧ ∀ m ∈ l, m.id ≠ i) := by
  constructor
  · intro hab
    have hfil : memos.filter (fun m => m.id != i) = memos :=
      List.filter_eq_self.mpr fun a ha => by
        simp only [bne_iff_ne, ne_eq, decide_eq_true_eq]
        intro hcon
        exact hab ⟨a, ha, hcon⟩
    simp only [MemoStorage.deleteMemo, hfil]
    rw [if_pos trivial]
  · intro hex
    have hlen := filter_id_length i memos hnd hex
    simp only [MemoStorage.deleteMemo]
    rw [if_neg (by omega)]
    refine ⟨memos.filter fun m => m.id != i, rfl, hlen, List.filter_sublist _, ?_⟩
    intro m hm
    have := (List.mem_filter.mp hm).2
    simpa [bne_iff_ne] using this

/-- C1 witness: deleting the id `"a"` from a two-element collection. -/
theorem deleteMemo_spec_witness :
    (([⟨"a", "t1", "c1", 0, 0, []⟩, ⟨"b", "t2", "c2", 0, 0, []⟩] :
        List Memo).map Memo.id).Nodup ∧
    (∃ m ∈ ([⟨"a", "t1", "c1", 0, 0, []⟩, ⟨"b", "t2", "c2", 0, 0, []⟩] : List Memo),
      m.id = "a") ∧
    ∃ l, MemoStorage.deleteMemo
        [⟨"a", "t1", "c1", 0, 0, []⟩, ⟨"b", "t2", "c2", 0, 0, []⟩] "a" = (true, some l) ∧
      l.length + 1 = ([⟨"a", "t1", "c1", 0, 0, []⟩,
        ⟨"b", "t2", "c2", 0, 0, []⟩] : List Memo).length ∧
      List.Sublist l [⟨"a", "t1", "c1", 0, 0, []⟩, ⟨"b", "t2", "c2", 0, 0, []⟩] ∧
      ∀ m ∈ l, m.id ≠ "a" :=
  ⟨by decide, by decide,
   (deleteMemo_spec [⟨"a", "t1", "c1", 0, 0, []⟩, ⟨"b", "t2", "c2", 0, 0, []⟩] "a"
     (by decide)).2 (by decide)⟩

/-- `findIdx?` on a list with no match is `none`, for any start index. -/
theorem findIdx_none (p : Memo → Bool) : ∀ (l : List Memo) (i : Nat),
    (∀ m ∈ l, p m = false) → List.findIdx? p l i = none := by
  intro l
  induction l with
  | nil => intro i _; exact List.findIdx?_nil
  | cons y ys ih =>
    intro i hall
    rw [List.findIdx?_cons, if_neg (by simp [hall y (List.mem_cons_self y ys)])]
    exact ih (i + 1) fun m hm => hall m (List.mem_cons_of_mem y hm)

/-- `findIdx?` on a list with a match finds the first one: the list
splits into a match-free front, the found element and the rest, and the
reported index is the front's length (shifted by the start index). -/
theorem findIdx_decomp (p : Memo → Bool) : ∀ (l : List Memo) (i : Nat),
    (∃ m ∈ l, p m = true) →
    ∃ pre x post, l = pre ++ x :: post ∧ p x = true ∧ (∀ m ∈ pre, p m = false) ∧
      List.findIdx? p l i = some (i + pre.length) := by
  intro l
  induction l with
  | nil => simp
  | cons y ys ih =>
    intro i hex
    by_cases hy : p y = true
    · exact ⟨[], y, ys, rfl, hy, by simp, by rw [List.findIdx?_cons, if_pos hy]; simp⟩
    · have hex' : ∃ m ∈ ys, p m = true := by
        rcases hex with ⟨m, hm, hp⟩
        rcases List.mem_cons.mp hm with rfl | hm'
        · exact absurd hp hy
        · exact ⟨m, hm', hp⟩
      rcases ih (i + 1) hex' with ⟨pre, x, post, hl, hpx, hpre, hfind⟩
      refine ⟨y :: pre, x, post, by rw [hl]; rfl, hpx, ?_, ?_⟩
      · intro m hm
        rcases List.mem_cons.mp hm with rfl | hm'
        · simpa using hy
        · exact hpre m hm'
      · rw [List.findIdx?_cons, if_neg (by simp [hy]), hfind]
        congr 1
        simp only [List.length_cons]
        omega

/-- Writing at the index right after a front segment replaces the
element there. -/
theorem set_at_front_length : ∀ (pre : List Memo) (x u : Memo) (post : List Memo),
    (pre ++ x :: post).set pre.length u = pre ++ u :: post := by
  intro pre
  induction pre with
  | nil => intro x u post; rfl
  | cons y ys ih =>
    intro x u post
    simp only [List.cons_append, List.length_cons, List.set_cons_succ]
    rw [ih]

/-- C8: not-found is reported by return value. For an absent id,
`getMemo` returns `null` (`none`) and the storage `updateMemo` returns
`false` without writing. For a present id, `getMemo` returns a memo of
the collection carrying that id, and `updateMemo` returns `true` after
writing the collection with the first record of that id replaced by the
new one (same length). Neither operation can throw: both are total. -/
theorem storage_lookup_spec (memos : List Memo) (i : String) (u : Memo) (hu : u.id = i) :
    ((¬ ∃ m ∈ memos, m.id = i) →
      MemoStorage.getMemo memos i = none ∧ MemoStorage.updateMemo memos u = (false, none)) ∧
    ((∃ m ∈ memos, m.id = i) →
      (∃ m, MemoStorage.getMemo memos i = some m ∧ m ∈ memos ∧ m.id = i) ∧
      (∃ pre x post, memos = pre ++ x :: post ∧ x.id = i ∧ (∀ m ∈ pre, m.id ≠ i) ∧
        MemoStorage.updateMemo memos u = (true, some (pre ++ u :: post)) ∧
        (pre ++ u :: post).length = memos.length)) := by
  constructor
  · intro hab
    constructor
    · unfold MemoStorage.getMemo
      rw [List.find?_eq_none]
      intro m hm
      simp only [beq_iff_eq]
      intro hcon
      exact hab ⟨m, hm, hcon⟩
    · have hfind : List.findIdx? (fun m => m.id == u.id) memos 0 = none := by
        apply findIdx_none
        intro m hm
        simp only [beq_eq_false_iff_ne, ne_eq, hu]
        intro hcon
        exact hab ⟨m, hm, hcon⟩
      simp only [MemoStorage.updateMemo, hfind]
  · intro hex
    constructor
    · have hsome : (memos.find? fun m => m.id == i).isSome := by
        rw [List.find?_isSome]
        rcases hex with ⟨m, hm, hmi⟩
        exact ⟨m, hm, by simpa using hmi⟩
      rcases Option.isSome_iff_exists.mp hsome with ⟨m, hm⟩
      exact ⟨m, hm, List.mem_of_find?_eq_some hm, by simpa using List.find?_some hm⟩
    · have hex' : ∃ m ∈ memos, (fun m : Memo => m.id == u.id) m = true := by
        rcases hex with ⟨m, hm, hmi⟩
        exact ⟨m, hm, by simp [hmi, hu]⟩
      rcases findIdx_decomp _ memos 0 hex' with ⟨pre, x, post, hl, hpx, hpre, hfind⟩
      refine ⟨pre, x, post, hl, by simpa [hu] using hpx, ?_, ?_, by simp [hl]⟩
      · intro m hm
        have := hpre m hm
        simp only [beq_eq_false_iff_ne, ne_eq, hu] at this
        exact this
      · simp only [MemoStorage.updateMemo, hfind, Nat.zero_add]
        rw [hl, set_at_front_length]

/-- C8 witness: looking up and updating the id `"b"` in a two-element
collection. -/
theorem storage_lookup_spec_witness :
    Memo.id ⟨"b", "t9", "c9", 7, 8, []⟩ = "b" ∧
    (∃ m ∈ ([⟨"a", "t1", "c1", 0, 0, []⟩, ⟨"b", "t2", "c2", 0, 0, []⟩] : List Memo),
      m.id = "b") ∧
    (∃ m, MemoStorage.getMemo
        [⟨"a", "t1", "c1", 0, 0, []⟩, ⟨"b", "t2", "c2", 0, 0, []⟩] "b" = some m ∧
      m ∈ ([⟨"a", "t1", "c1", 0, 0, []⟩, ⟨"b", "t2", "c2", 0, 0, []⟩] : List Memo) ∧
      m.id = "b") :=
  ⟨rfl, by decide,
   ((storage_lookup_spec [⟨"a", "t1", "c1", 0, 0, []⟩, ⟨"b", "t2", "c2", 0, 0, []⟩] "b"
     ⟨"b", "t9", "c9", 7, 8, []⟩ rfl).2 (by decide)).1⟩

/-- C3: `loadMemos` after `saveMemos` reproduces the collection exactly
(ids, text fields, tags and both timestamps), for every collection
whose timestamps are before year 10000 — dates survive the trip through
their ISO-8601 serialization. -/
theorem save_load_roundtrip (memos : List Memo)
    (h : ∀ m ∈ memos, m.createdAt < 253402300800000 ∧ m.updatedAt < 253402300800000) :
    MemoStorage.loadMemos (MemoStorage.saveMemos memos) = some memos := by
  induction memos with
  | nil => rfl
  | cons m rest ih =>
    have hm := h m (List.mem_cons_self m rest)
    have hrest := ih fun x hx => h x (List.mem_cons_of_mem m hx)
    show MemoStorage.loadMemos
      (MemoStorage.serializeMemo m :: MemoStorage.saveMemos rest) = some (m :: rest)
    rw [MemoStorage.loadMemos]
    unfold MemoStorage.serializeMemo
    rw [show (⟨m.id, m.title, m.content, toISOString m.createdAt, toISOString m.updatedAt,
      m.tags⟩ : MemoStorage.StoredMemo).createdAt = toISOString m.createdAt from rfl]
    rw [parseISODate_toISOString _ hm.1, parseISODate_toISOString _ hm.2, hrest]

/-- C3 witness: a singleton collection with realistic timestamps. -/
theorem save_load_roundtrip_witness :
    (∀ m ∈ ([⟨"a", "t", "c", 1700000000000, 1700000000001, ["x"]⟩] : List Memo),
      m.createdAt < 253402300800000 ∧ m.updatedAt < 253402300800000) ∧
    MemoStorage.loadMemos (MemoStorage.saveMemos
      [⟨"a", "t", "c", 1700000000000, 1700000000001, ["x"]⟩]) =
      some [⟨"a", "t", "c", 1700000000000, 1700000000001, ["x"]⟩] :=
  ⟨by decide, save_load_roundtrip _ (by decide)⟩
